import Mathlib

/-!
Verification development for a Snowflake convenience layer
(`snowflake_service/main.py`): a query-caching client with variable
substitution, response normalization, table export with dtype-based column
type inference, idempotent table drop, and ad-hoc SQL file execution.

Modelling conventions:
* Python strings are embedded as `Str := List Char`; `str.strip`,
  `str.lower`, `str.upper`, `str.startswith`, `str.endswith`, `str.split`
  are modelled for the ASCII fragment the program manipulates.
* `re.sub(r"\$(\w+)", r"\x7b\1\x7d", query)` and CPython `str.format(**vars)`
  are embedded as structural character state machines (`fvAux`, `pfAux`).
  `str.format` is modelled for the fragment the program can produce and
  consume: literal text, `\x7b\x7b`/`\x7d\x7d` escapes and simple replacement
  fields `\x7bname\x7d`; a field using attribute/index access, a conversion or
  a format spec is mapped to the placeholder error `PErr.fieldError`.
* The warehouse session is a value of type `Warehouse` (catalog of
  schema-qualified table names plus current database/schema context)
  together with a trace of issued statements (`Stmt`); Snowflake resolves
  unquoted identifiers by uppercasing them, and its `information_schema`
  stores the uppercased names.
* Cell payloads of tabular results are opaque to every operation of the
  program, so they are embedded as `Int`; parquet (de)serialization of a
  cache artifact is modelled as the identity on the stored `DataFrame`.
* `hashHex` (for `hashlib.md5(...).hexdigest()`) and `runQ` (for
  `cursor.execute(...)` + `cursor.fetch_pandas_all()`) are parameters of the
  embedding: the theorems hold for every hash function and every oracle.
-/

deriving instance DecidableEq for Except

/-- Embedded Python string: a list of characters. -/
abbrev Str := List Char

/-- Opaque cell payload of a tabular result. -/
abbrev Cell := Int

/-- ASCII whitespace recognized by Python `str.strip()`. -/
def isSpaceC (c : Char) : Bool :=
  c = ' ' || c = '\t' || c = '\n' || c = '\x0d' || c = '\x0b' || c = '\x0c'

/-- ASCII decimal digit. -/
def isDigitC (c : Char) : Bool := '0' ≤ c && c ≤ '9'

/-- ASCII word character, the fragment of the regex class `\w` the program uses. -/
def isWordChar (c : Char) : Bool :=
  ('a' ≤ c && c ≤ 'z') || ('A' ≤ c && c ≤ 'Z') || isDigitC c || c = '_'

/-- ASCII lowercase of one character (`str.lower`, ASCII fragment). -/
def lowerC (c : Char) : Char :=
  if 'A' ≤ c && c ≤ 'Z' then Char.ofNat (c.toNat + 32) else c

/-- ASCII uppercase of one character (`str.upper`, ASCII fragment). -/
def upperC (c : Char) : Char :=
  if 'a' ≤ c && c ≤ 'z' then Char.ofNat (c.toNat - 32) else c

/-- Model of Python `str.lower()`. -/
def lowerS (s : Str) : Str := s.map lowerC

/-- Model of Python `str.upper()`. -/
def upperS (s : Str) : Str := s.map upperC

/-- Model of Python `str.startswith(p)`. -/
def startsWithS : Str → Str → Bool
  | _, [] => true
  | [], _ :: _ => false
  | c :: cs, p :: ps => c = p && startsWithS cs ps

/-- Model of Python `str.endswith(p)`. -/
def endsWithS (s p : Str) : Bool := startsWithS s.reverse p.reverse

/-- Remove trailing whitespace (right half of Python `str.strip()`). -/
def stripRight : Str → Str
  | [] => []
  | c :: t =>
    match stripRight t with
    | [] => if isSpaceC c then [] else [c]
    | r => c :: r

/-- Model of Python `str.strip()`: drop leading and trailing whitespace. -/
def pyStrip (s : Str) : Str := stripRight (s.dropWhile isSpaceC)

/-- Model of Python `s.split(";")`: the head segment before the first `;`
and the remaining segments. The result list `h :: r` is never empty. -/
def split1 : Str → Str × List Str
  | [] => ([], [])
  | c :: t =>
    let p := split1 t
    if c = ';' then ([], p.1 :: p.2) else (c :: p.1, p.2)

/-- All segments of `s.split(";")`, in order. -/
def splitSemi (s : Str) : List Str := (split1 s).1 :: (split1 s).2

/-- Apply a function to the last element of a list only. -/
def mapLast (f : Str → Str) : List Str → List Str
  | [] => []
  | [x] => [f x]
  | x :: y :: xs => x :: mapLast f (y :: xs)

/-- Association lookup by key (model of Python dict access / file existence). -/
def lookupA {α : Type} : List (Str × α) → Str → Option α
  | [], _ => none
  | (k, v) :: t, key => if k = key then some v else lookupA t key

/-- Pandas column dtypes distinguished by the program (a representative
cross-section of the dtypes `pd.api.types` classifies). -/
inductive Dtype where
  | int8 | int16 | int32 | int64 | uint8 | uint32 | uint64
  | float32 | float64
  | datetime64 | datetime64tz
  | boolDt
  | objectDt | categoryDt | timedelta64 | stringDt
deriving DecidableEq, Repr

/-- Model of `pd.api.types.is_integer_dtype` (false on booleans). -/
def is_integer_dtype : Dtype → Bool
  | .int8 | .int16 | .int32 | .int64 | .uint8 | .uint32 | .uint64 => true
  | _ => false

/-- Model of `pd.api.types.is_float_dtype`. -/
def is_float_dtype : Dtype → Bool
  | .float32 | .float64 => true
  | _ => false

/-- Model of `pd.api.types.is_datetime64_any_dtype` (tz-aware included). -/
def is_datetime64_any_dtype : Dtype → Bool
  | .datetime64 | .datetime64tz => true
  | _ => false

/-- Model of `pd.api.types.is_bool_dtype`. -/
def is_bool_dtype : Dtype → Bool
  | .boolDt => true
  | _ => false

/-- Source `SnowflakeUtils.pandas_type_to_snowflake`: map a pandas dtype to a
Snowflake column type by testing the pandas dtype predicates in order. -/
def pandas_type_to_snowflake (dtype : Dtype) : Str :=
  if is_integer_dtype dtype then "NUMBER".data
  else if is_float_dtype dtype then "FLOAT".data
  else if is_datetime64_any_dtype dtype then "TIMESTAMP_NTZ".data
  else if is_bool_dtype dtype then "BOOLEAN".data
  else "STRING".data

/-- The type mapping exactly as the claim states it: integer dtypes to NUMBER,
float to FLOAT, datetime to TIMESTAMP_NTZ, boolean to BOOLEAN, everything
else to STRING. Stated from the claim for comparison with the source. -/
def dtype_map_claim : Dtype → Str
  | .int8 | .int16 | .int32 | .int64 | .uint8 | .uint32 | .uint64 => "NUMBER".data
  | .float32 | .float64 => "FLOAT".data
  | .datetime64 | .datetime64tz => "TIMESTAMP_NTZ".data
  | .boolDt => "BOOLEAN".data
  | .objectDt | .categoryDt | .timedelta64 | .stringDt => "STRING".data

/-- One named, typed column of a tabular result. -/
structure Column where
  name : Str
  dtype : Dtype
  vals : List Cell
deriving DecidableEq, Repr

/-- A pandas DataFrame: an ordered sequence of named, typed columns. -/
structure DataFrame where
  cols : List Column
deriving DecidableEq, Repr

/-- Model of pandas `df.empty` (an axis of length zero; in a well-formed
frame all columns share one length). -/
def dfEmpty (df : DataFrame) : Bool := df.cols.all (fun c => c.vals.isEmpty)

/-- Select the list entries whose mask bit is true
(model of `df.loc` with a boolean column mask). -/
def selectMask {α : Type} : List α → List Bool → List α
  | a :: as_, b :: bs => if b then a :: selectMask as_ bs else selectMask as_ bs
  | _, _ => []

/-- Positional assignment of new column names (model of `df.columns = [...]`). -/
def setNames : List Column → List Str → List Column
  | c :: cs, n :: ns => { c with name := n } :: setNames cs ns
  | _, _ => []

/-- Source `SnowflakeUtils.convert_snowflake_response`: drop the columns whose
name starts with the reserved marker and lowercase the remaining names. -/
def convert_snowflake_response (response : DataFrame) : DataFrame :=
  let mask := response.cols.map (fun c => startsWithS c.name ("_".data))
  let kept := selectMask response.cols (mask.map (fun b => !b))
  ⟨setNames kept (kept.map (fun c => lowerS c.name))⟩

/-- A variable map: variable name (no dollar sign) to substitution value. -/
abbrev VarMap := List (Str × Str)

/-- Scanner state of the `re.sub` model: outside any token, just after an
unconsumed dollar sign, or inside the word following a dollar sign. -/
inductive FvState where
  | normal | afterDollar | inWord
deriving DecidableEq, Repr

/-- Source `SnowflakeUtils.format_variables` as a character state machine:
each maximal `\w+` run after a `$` is rewritten to the same run wrapped in
braces; a `$` not followed by a word character is kept verbatim. -/
def fvAux : FvState → Str → Str
  | .normal, [] => []
  | .afterDollar, [] => ['$']
  | .inWord, [] => ['}']
  | .normal, c :: r => if c = '$' then fvAux .afterDollar r else c :: fvAux .normal r
  | .afterDollar, c :: r =>
    if isWordChar c then '{' :: c :: fvAux .inWord r
    else if c = '$' then '$' :: fvAux .afterDollar r
    else '$' :: c :: fvAux .normal r
  | .inWord, c :: r =>
    if isWordChar c then c :: fvAux .inWord r
    else if c = '$' then '}' :: fvAux .afterDollar r
    else '}' :: c :: fvAux .normal r

/-- Source `SnowflakeUtils.format_variables`:
`re.sub` of dollar-variables into brace placeholders. -/
def format_variables (query : Str) : Str := fvAux .normal query

/-- Errors of the CPython `str.format` model. `keyError` is the missing-key
error; `indexError` is the positional-field error (no positional arguments are
ever passed); `valueError` is a brace syntax error; `fieldError` stands for
the outcomes of compound fields (attribute/index/conversion/format-spec) that
the program never produces. -/
inductive PErr where
  | keyError (name : Str)
  | indexError
  | valueError
  | fieldError
deriving DecidableEq, Repr

/-- Resolve one replacement field of `str.format(**vars)`: empty or all-digit
names are positional (no positional arguments are supplied), word names are
keyword lookups, anything else is a compound field. -/
def resolveField (vars : VarMap) (acc : Str) : Except PErr Str :=
  if acc.isEmpty || acc.all isDigitC then .error .indexError
  else if acc.all isWordChar then
    match lookupA vars acc with
    | some v => .ok v
    | none => .error (.keyError acc)
  else .error .fieldError

/-- Parser state of the `str.format` model: outside a field, just after an
opening brace, inside a field name, or just after a closing brace. -/
inductive PState where
  | outside | sawLB | inField (acc : Str) | sawRB
deriving DecidableEq, Repr

/-- CPython `str.format(**vars)` as a character state machine over the
modelled fragment (literal text, doubled-brace escapes, simple fields). -/
def pfAux (vars : VarMap) : PState → Str → Except PErr Str
  | .outside, [] => .ok []
  | .sawLB, [] => .error .valueError
  | .inField _, [] => .error .valueError
  | .sawRB, [] => .error .valueError
  | .outside, c :: r =>
    if c = '{' then pfAux vars .sawLB r
    else if c = '}' then pfAux vars .sawRB r
    else (fun s => c :: s) <$> pfAux vars .outside r
  | .sawLB, c :: r =>
    if c = '{' then (fun s => '{' :: s) <$> pfAux vars .outside r
    else if c = '}' then
      match resolveField vars [] with
      | .ok v => (fun s => v ++ s) <$> pfAux vars .outside r
      | .error e => .error e
    else pfAux vars (.inField [c]) r
  | .inField acc, c :: r =>
    if c = '}' then
      match resolveField vars acc with
      | .ok v => (fun s => v ++ s) <$> pfAux vars .outside r
      | .error e => .error e
    else if c = '{' then .error .valueError
    else pfAux vars (.inField (acc ++ [c])) r
  | .sawRB, c :: r =>
    if c = '}' then (fun s => '}' :: s) <$> pfAux vars .outside r
    else .error .valueError

/-- Model of Python `s.format(**vars)`. -/
def py_format (s : Str) (vars : VarMap) : Except PErr Str := pfAux vars .outside s

/-- The substitution step of the program: `format_variables` followed by
`str.format(**variables)` (source lines 194-196 and 374-376). -/
def pySubst (query : Str) (vars : VarMap) : Except PErr Str :=
  py_format (format_variables query) vars

/-- State of the claim-level substitution machine: outside a token, after a
dollar sign, or inside a variable name being accumulated. -/
inductive MState where
  | mN | mD | mW (acc : Str)
deriving DecidableEq, Repr

/-- The substitution described by the claim, as a state machine: each
`$identifier` occurrence is replaced by the map's value for the identifier,
a missing identifier raises the missing-key error, everything else is copied.
Stated from the claim for comparison with the composed source substitution. -/
def ssAux (vars : VarMap) : MState → Str → Except PErr Str
  | .mN, [] => .ok []
  | .mD, [] => .ok ['$']
  | .mW acc, [] =>
    (match lookupA vars acc with
     | some v => .ok v
     | none => .error (.keyError acc))
  | .mN, c :: r => if c = '$' then ssAux vars .mD r else (fun s => c :: s) <$> ssAux vars .mN r
  | .mD, c :: r =>
    if isWordChar c then ssAux vars (.mW [c]) r
    else if c = '$' then (fun s => '$' :: s) <$> ssAux vars .mD r
    else (fun s => '$' :: c :: s) <$> ssAux vars .mN r
  | .mW acc, c :: r =>
    if isWordChar c then ssAux vars (.mW (acc ++ [c])) r
    else
      match lookupA vars acc with
      | some v =>
        if c = '$' then (fun s => v ++ s) <$> ssAux vars .mD r
        else (fun s => v ++ c :: s) <$> ssAux vars .mN r
      | none => .error (.keyError acc)

/-- Claim-level substitution over a whole query text. -/
def substSpec (query : Str) (vars : VarMap) : Except PErr Str := ssAux vars .mN query

/-- The identifiers referenced via `$identifier` tokens, with the same
tokenization as `format_variables`, in order of occurrence. -/
def rfAux : MState → Str → List Str
  | .mN, [] => []
  | .mD, [] => []
  | .mW acc, [] => [acc]
  | .mN, c :: r => if c = '$' then rfAux .mD r else rfAux .mN r
  | .mD, c :: r =>
    if isWordChar c then rfAux (.mW [c]) r
    else if c = '$' then rfAux .mD r
    else rfAux .mN r
  | .mW acc, c :: r =>
    if isWordChar c then rfAux (.mW (acc ++ [c])) r
    else acc :: (if c = '$' then rfAux .mD r else rfAux .mN r)

/-- All identifiers a query references through `$identifier` tokens. -/
def refsQ (query : Str) : List Str := rfAux .mN query

/-- True when the text contains no literal brace character. -/
def braceFreeB (s : Str) : Bool := s.all (fun c => !(c = '{' || c = '}'))

/-- Well-dollared texts, following the token states of `format_variables`:
whenever a `$` is followed by a word character, that first word character is
not a digit (so the rewritten field is a keyword field, not positional). -/
def gdAux : FvState → Str → Bool
  | _, [] => true
  | .normal, c :: r => if c = '$' then gdAux .afterDollar r else gdAux .normal r
  | .afterDollar, c :: r =>
    if isWordChar c then !isDigitC c && gdAux .inWord r
    else if c = '$' then gdAux .afterDollar r
    else gdAux .normal r
  | .inWord, c :: r =>
    if isWordChar c then gdAux .inWord r
    else if c = '$' then gdAux .afterDollar r
    else gdAux .normal r

/-- Every `$`-token of the text names a proper (non-positional) identifier. -/
def goodDollarsB (s : Str) : Bool := gdAux .normal s

/-- A statement issued on the Snowflake session, in issue order. -/
inductive Stmt where
  | useDatabase (database : Str)
  | useSchema (schema : Str)
  | tableExistsQ (schema tableUpper : Str)
  | dropTableS (schema table : Str)
  | createTableS (schema table : Str) (columnDefs : List (Str × Str))
  | writePandas (table : Str) (df : DataFrame)
deriving DecidableEq, Repr

/-- Warehouse session state: the catalog of (schema, table) names as
`information_schema.tables` stores them, and the selected context. -/
structure Warehouse where
  tables : List (Str × Str)
  curDb : Option Str
  curSchema : Option Str
deriving DecidableEq, Repr

/-- Errors the warehouse can raise on DDL. -/
inductive SqlErr where
  | tableNotFound
  | tableExists
deriving DecidableEq, Repr

/-- The `information_schema.tables` count: entries whose `table_schema`
equals the literal `schema` string and whose `table_name` equals the
uppercased table name, as in the source's catalog query. -/
def countT (tables : List (Str × Str)) (schema tableUpper : Str) : Nat :=
  (tables.filter (fun p => p.1 = schema && p.2 = tableUpper)).length

/-- Catalog entries are stored uppercased, as Snowflake stores identifiers
created from unquoted DDL. -/
def wfW (w : Warehouse) : Prop :=
  ∀ p ∈ w.tables, upperS p.1 = p.1 ∧ upperS p.2 = p.2

instance (w : Warehouse) : Decidable (wfW w) := by
  unfold wfW; infer_instance

/-- Source `SnowflakeUtils.drop_table`: select context, count the table in
`information_schema.tables` (literal schema, uppercased table name), and
issue `DROP TABLE schema.table` when the count is nonzero. The unquoted
identifiers of the DROP are resolved by uppercasing; dropping an absent
table raises. Returns (error, new state, issued statements). -/
def drop_table (w : Warehouse) (database schema table : Str) :
    Option SqlErr × Warehouse × List Stmt :=
  let w1 : Warehouse := { w with curDb := some database, curSchema := some schema }
  let tU := upperS table
  let tr := [Stmt.useDatabase database, Stmt.useSchema schema, Stmt.tableExistsQ schema tU]
  if countT w1.tables schema tU ≠ 0 then
    let sU := upperS schema
    if (sU, tU) ∈ w1.tables then
      (none,
       { w1 with tables := w1.tables.filter (fun p => !(p.1 = sU && p.2 = tU)) },
       tr ++ [Stmt.dropTableS schema table])
    else (some .tableNotFound, w1, tr ++ [Stmt.dropTableS schema table])
  else (none, w1, tr)

/-- Source `SnowflakeUtils.export_data`: drop the table first when `append`
is false, return when the frame is empty, uppercase the column names (an
in-place mutation of the caller's frame), select context, count the table in
the catalog, create it from inferred column types when absent, and bulk-write
the frame. Returns (error, new state, issued statements, the caller's frame
as it is left after the call). -/
def export_data (w : Warehouse) (df : DataFrame) (database schema table : Str)
    (append : Bool) : Option SqlErr × Warehouse × List Stmt × DataFrame :=
  let d0 := if !append then drop_table w database schema table else (none, w, [])
  match d0 with
  | (some e, w0, tr0) => (some e, w0, tr0, df)
  | (none, w0, tr0) =>
    if dfEmpty df then (none, w0, tr0, df)
    else
      let df1 : DataFrame := ⟨df.cols.map (fun c => { c with name := upperS c.name })⟩
      let w1 : Warehouse := { w0 with curDb := some database, curSchema := some schema }
      let tU := upperS table
      let tr1 := tr0 ++ [Stmt.useDatabase database, Stmt.useSchema schema,
        Stmt.tableExistsQ schema tU]
      if countT w1.tables schema tU = 0 then
        let cdefs := df1.cols.map (fun c => (c.name, pandas_type_to_snowflake c.dtype))
        let sU := upperS schema
        if (sU, tU) ∈ w1.tables then
          (some .tableExists, w1, tr1 ++ [Stmt.createTableS schema table cdefs], df1)
        else
          (none, { w1 with tables := (sU, tU) :: w1.tables },
           tr1 ++ [Stmt.createTableS schema table cdefs, Stmt.writePandas table df1], df1)
      else (none, w1, tr1 ++ [Stmt.writePandas table df1], df1)

/-- The on-disk cache: one artifact (a stored result set) per cache key. -/
abbrev Cache := List (Str × DataFrame)

/-- Write an artifact under a key, overwriting any stale entry
(model of `df.to_parquet(cache_file)`). -/
def cacheSet : Cache → Str → DataFrame → Cache
  | [], key, df => [(key, df)]
  | (k, v) :: t, key, df =>
    if k = key then (key, df) :: t else (k, v) :: cacheSet t key df

/-- Errors `fetch_data` raises before or during execution. -/
inductive FErr where
  | fileNotFoundErr
  | valueErr
  | fmtErr (e : PErr)
deriving DecidableEq, Repr

/-- Model of `pathlib.Path(p).name`: the final path component. -/
def baseName (p : Str) : Str := (p.reverse.takeWhile (fun c => c ≠ '/')).reverse

/-- Model of `Path(name).with_suffix(".parquet").name` on a final component:
replace the extension after the last dot, unless the only dot is leading. -/
def withSuffixParquet (b : Str) : Str :=
  let rest := b.reverse.dropWhile (fun c => c ≠ '.')
  match rest with
  | [] => b ++ ".parquet".data
  | _ :: pre => if pre.isEmpty then b ++ ".parquet".data else pre.reverse ++ ".parquet".data

/-- The inline-text validity test of `fetch_data`: the stripped text must
start, case-insensitively, with `select` or `with`. -/
def validQ (query : Str) : Bool :=
  startsWithS (lowerS query) ("select".data) || startsWithS (lowerS query) ("with".data)

/-- Classification of the query input as a file reference
(`query_input.lower().endswith(".sql")`). -/
def isFileB (query_input : Str) : Bool := endsWithS (lowerS query_input) (".sql".data)

/-- The cache-artifact name `fetch_data` uses for an inline query: the hex
digest of the stripped query text, before any variable substitution. -/
def inlineKey (hashHex : Str → Str) (query_input : Str) : Str :=
  hashHex (pyStrip query_input) ++ ".parquet".data

/-- Query resolution of `fetch_data`: a file reference is prefixed with the
SQL root, must exist, and is read, its cache name derived from the file name;
inline text is stripped and validated, its cache name derived from the
content hash. Returns (query text, cache-artifact name). -/
def resolveQuery (hashHex : Str → Str) (files : List (Str × Str)) (query_input : Str) :
    Except FErr (Str × Str) :=
  if isFileB query_input then
    let qi := if startsWithS query_input ("sql/".data) then query_input
              else "sql/".data ++ query_input
    match lookupA files qi with
    | none => .error .fileNotFoundErr
    | some text => .ok (text, withSuffixParquet (baseName qi))
  else
    let q := pyStrip query_input
    if validQ q then .ok (q, inlineKey hashHex query_input)
    else .error .valueErr

/-- Outcome of a `fetch_data` call: the returned frame or the raised error,
the cache as left on disk, and the statements executed on the session. -/
structure FetchOut where
  out : Except FErr DataFrame
  cache : Cache
  trace : List Str
deriving DecidableEq, Repr

/-- Source `SnowflakeUtils.fetch_data`: resolve the query and cache name;
on a cache hit (when caching is on) return the stored artifact with no
substitution and no execution; otherwise substitute variables, execute,
clean the response, overwrite the cache artifact and return the clean frame.
`runQ` is the session oracle (`cursor.execute` + `fetch_pandas_all`). -/
def fetch_data (runQ : Str → DataFrame) (hashHex : Str → Str)
    (files : List (Str × Str)) (cache : Cache) (query_input : Str)
    (vars : VarMap) (cacheFlag : Bool) : FetchOut :=
  match resolveQuery hashHex files query_input with
  | .error e => ⟨.error e, cache, []⟩
  | .ok (query, ckey) =>
    match (if cacheFlag then lookupA cache ckey else none) with
    | some df => ⟨.ok df, cache, []⟩
    | none =>
      match pySubst query vars with
      | .error e => ⟨.error (.fmtErr e), cache, []⟩
      | .ok q2 =>
        let df := convert_snowflake_response (runQ q2)
        ⟨.ok df, cacheSet cache ckey df, [q2]⟩

/-- Source `SnowflakeUtils.execute_sql`: substitute variables into the file
text, strip it, split it on the statement terminator, and execute each
non-empty stripped command in order. Returns the executed command list. -/
def execute_sql (fileText : Str) (vars : VarMap) : Except PErr (List Str) :=
  match pySubst fileText vars with
  | .error e => .error e
  | .ok sub =>
    let cmds := splitSemi (pyStrip sub)
    .ok ((cmds.map pyStrip).filter (fun c => !c.isEmpty))

/-- The statement sequence as the claim states it: the non-empty (after
trimming) segments of the substituted text split on the terminator, without
the pre-strip of the whole text. Stated from the claim for comparison. -/
def claimSegments (s : Str) : List Str :=
  ((splitSemi s).map pyStrip).filter (fun c => !c.isEmpty)

example : format_variables "select * from t where id = $id".data
    = "select * from t where id = ".data ++ "{id}".data := by decide
example : pySubst "select * from t where id = $id".data [("id".data, "42".data)]
    = .ok ("select * from t where id = 42".data) := by decide
example : pySubst "select * from t where id = $id".data []
    = .error (.keyError ("id".data)) := by decide
example : pySubst "select a$$b".data [("b".data, "1".data)]
    = .ok ("select a$1".data) := by decide
example : pySubst "select 1".data [] = .ok ("select 1".data) := by decide
example : refsQ "select $a, $b from $a".data = ["a".data, "b".data, "a".data] := by decide

example : pandas_type_to_snowflake .uint32 = "NUMBER".data := by decide
example : pandas_type_to_snowflake .categoryDt = "STRING".data := by decide
example : pyStrip "  select 1  ".data = "select 1".data := by decide
example : splitSemi "a;;b".data = ["a".data, [], "b".data] := by decide
example : endsWithS (lowerS "Foo.SQL".data) (".sql".data) = true := by decide
example :
    convert_snowflake_response ⟨[⟨"_META".data, .objectDt, [0]⟩, ⟨"ID".data, .int64, [1]⟩]⟩
      = ⟨[⟨"id".data, .int64, [1]⟩]⟩ := by decide

/-! ### Helper lemmas -/

theorem selectMask_filter {α : Type} (q : α → Bool) (l : List α) :
    selectMask l (l.map q) = l.filter q := by
  induction l with
  | nil => rfl
  | cons a t ih =>
    simp only [List.map_cons, selectMask, List.filter_cons]
    rw [ih]

theorem setNames_map (cs : List Column) (f : Column → Str) :
    setNames cs (cs.map f) = cs.map (fun c => { c with name := f c }) := by
  induction cs with
  | nil => rfl
  | cons c t ih => simp [setNames, ih]

/-! ### C6: dtype-to-Snowflake-type inference -/

/-- C6: the column-type inference is total and maps integer dtypes to NUMBER,
float dtypes to FLOAT, datetime dtypes to TIMESTAMP_NTZ, boolean dtypes to
BOOLEAN, and every other dtype to STRING; no dtype makes it fail. -/
theorem c6_pandas_type_total (d : Dtype) :
    pandas_type_to_snowflake d = dtype_map_claim d := by
  cases d <;> rfl

/-! ### C7: response cleaning -/

/-- C7: the cleaned response is obtained by removing exactly the columns whose
name starts with the reserved marker, lowercasing the remaining names, and
keeping the remaining columns' order, dtypes and values. -/
theorem c7_convert_response (r : DataFrame) :
    convert_snowflake_response r
      = ⟨(r.cols.filter (fun c => !(startsWithS c.name ("_".data)))).map
          (fun c => ⟨lowerS c.name, c.dtype, c.vals⟩)⟩ := by
  simp only [convert_snowflake_response, List.map_map]
  rw [selectMask_filter, setNames_map]
  simp only [Function.comp_def]

theorem lookupA_cacheSet (c : Cache) (k : Str) (df : DataFrame) :
    lookupA (cacheSet c k df) k = some df := by
  induction c with
  | nil => simp [cacheSet, lookupA]
  | cons h t ih =>
    obtain ⟨k', v'⟩ := h
    by_cases hk : k' = k
    · simp [cacheSet, hk, lookupA]
    · simp [cacheSet, hk, lookupA, ih]

/-! ### C2: cache hit short-circuits everything -/

/-- C2: whenever query resolution yields a cache key holding an artifact,
`fetch_data` with caching on returns that artifact, leaves the cache
untouched and executes nothing — for every variable map and every session
oracle, so no substitution and no session round-trip takes place. -/
theorem c2_cache_hit (runQ : Str → DataFrame) (hashHex : Str → Str)
    (files : List (Str × Str)) (cache : Cache) (qi : Str) (vars : VarMap)
    (q k : Str) (art : DataFrame)
    (hres : resolveQuery hashHex files qi = .ok (q, k))
    (hhit : lookupA cache k = some art) :
    fetch_data runQ hashHex files cache qi vars true = ⟨.ok art, cache, []⟩ := by
  simp [fetch_data, hres, hhit]

/-- C2 witness: a concrete pre-populated cache key is returned directly. -/
theorem c2_cache_hit_witness :
    resolveQuery (fun _ => "h".data) [] ("select 1".data)
        = .ok ("select 1".data, "h.parquet".data) ∧
      lookupA [("h.parquet".data, DataFrame.mk [⟨"a".data, .int64, [7]⟩])]
        ("h.parquet".data) = some (DataFrame.mk [⟨"a".data, .int64, [7]⟩]) ∧
      fetch_data (fun _ => ⟨[]⟩) (fun _ => "h".data) []
        [("h.parquet".data, DataFrame.mk [⟨"a".data, .int64, [7]⟩])]
        ("select 1".data) [("x".data, "y".data)] true
        = ⟨.ok (DataFrame.mk [⟨"a".data, .int64, [7]⟩]),
           [("h.parquet".data, DataFrame.mk [⟨"a".data, .int64, [7]⟩])], []⟩ :=
  ⟨by decide, by decide,
    c2_cache_hit (fun _ => ⟨[]⟩) (fun _ => "h".data) []
      [("h.parquet".data, DataFrame.mk [⟨"a".data, .int64, [7]⟩])]
      ("select 1".data) [("x".data, "y".data)]
      ("select 1".data) ("h.parquet".data) (DataFrame.mk [⟨"a".data, .int64, [7]⟩])
      (by decide) (by decide)⟩

/-! ### C3: the cache key ignores the variable map -/

/-- C3: for an inline query the cache key is a function of the stripped
pre-substitution text alone; operationally, a first call with one variable
map fills the cache at that key, and a second call with any other variable
map (and any other session oracle) hits the same entry and returns the first
call's result without executing anything. -/
theorem c3_cache_key_collision (runQ1 runQ2 : Str → DataFrame)
    (hashHex : Str → Str) (files : List (Str × Str)) (cache : Cache)
    (qi : Str) (vars1 vars2 : VarMap) (s1 : Str)
    (hfile : isFileB qi = false)
    (hvalid : validQ (pyStrip qi) = true)
    (hmiss : lookupA cache (inlineKey hashHex qi) = none)
    (hsub : pySubst (pyStrip qi) vars1 = .ok s1) :
    fetch_data runQ1 hashHex files cache qi vars1 true
        = ⟨.ok (convert_snowflake_response (runQ1 s1)),
           cacheSet cache (inlineKey hashHex qi) (convert_snowflake_response (runQ1 s1)),
           [s1]⟩ ∧
      fetch_data runQ2 hashHex files
          (cacheSet cache (inlineKey hashHex qi) (convert_snowflake_response (runQ1 s1)))
          qi vars2 true
        = ⟨.ok (convert_snowflake_response (runQ1 s1)),
           cacheSet cache (inlineKey hashHex qi) (convert_snowflake_response (runQ1 s1)),
           []⟩ := by
  have hmiss' : lookupA cache (hashHex (pyStrip qi) ++ ".parquet".data) = none := by
    simpa [inlineKey] using hmiss
  constructor
  · simp [fetch_data, resolveQuery, hfile, hvalid, hmiss', hsub, inlineKey]
  · simp [fetch_data, resolveQuery, hfile, hvalid, inlineKey, lookupA_cacheSet]

/-- C3 witness: two inline calls sharing a skeleton but with different
variable maps collide on one cache entry; the second returns the first's
result untouched. -/
theorem c3_cache_key_collision_witness :
    isFileB ("select $a".data) = false ∧
      validQ (pyStrip ("select $a".data)) = true ∧
      fetch_data (fun s => ⟨[⟨"V".data, .int64, []⟩, ⟨s, .objectDt, []⟩]⟩)
          (fun _ => "k".data) [] []
          ("select $a".data) [("a".data, "1".data)] true
        = ⟨.ok (convert_snowflake_response
              ⟨[⟨"V".data, .int64, []⟩, ⟨"select 1".data, .objectDt, []⟩]⟩),
           cacheSet [] (inlineKey (fun _ => "k".data) ("select $a".data))
             (convert_snowflake_response
               ⟨[⟨"V".data, .int64, []⟩, ⟨"select 1".data, .objectDt, []⟩]⟩),
           ["select 1".data]⟩ ∧
      fetch_data (fun _ => ⟨[]⟩) (fun _ => "k".data) []
          (cacheSet [] (inlineKey (fun _ => "k".data) ("select $a".data))
            (convert_snowflake_response
              ⟨[⟨"V".data, .int64, []⟩, ⟨"select 1".data, .objectDt, []⟩]⟩))
          ("select $a".data) [("a".data, "2".data)] true
        = ⟨.ok (convert_snowflake_response
              ⟨[⟨"V".data, .int64, []⟩, ⟨"select 1".data, .objectDt, []⟩]⟩),
           cacheSet [] (inlineKey (fun _ => "k".data) ("select $a".data))
             (convert_snowflake_response
               ⟨[⟨"V".data, .int64, []⟩, ⟨"select 1".data, .objectDt, []⟩]⟩),
           []⟩ :=
  ⟨by decide, by decide,
    (c3_cache_key_collision
      (fun s => ⟨[⟨"V".data, .int64, []⟩, ⟨s, .objectDt, []⟩]⟩) (fun _ => ⟨[]⟩)
      (fun _ => "k".data) [] [] ("select $a".data)
      [("a".data, "1".data)] [("a".data, "2".data)] ("select 1".data)
      (by decide) (by decide) (by decide) (by decide)).1,
    (c3_cache_key_collision
      (fun s => ⟨[⟨"V".data, .int64, []⟩, ⟨s, .objectDt, []⟩]⟩) (fun _ => ⟨[]⟩)
      (fun _ => "k".data) [] [] ("select $a".data)
      [("a".data, "1".data)] [("a".data, "2".data)] ("select 1".data)
      (by decide) (by decide) (by decide) (by decide)).2⟩

/-! ### C5: inline-text validation -/

/-- C5: an input not classified as a file reference is stripped and must
start, case-insensitively, with `select` or `with`; otherwise `fetch_data`
raises the validation error with the cache unchanged and nothing executed,
and when the prefix test passes the validation error is never raised. -/
theorem c5_inline_validation (runQ : Str → DataFrame) (hashHex : Str → Str)
    (files : List (Str × Str)) (cache : Cache) (qi : Str) (vars : VarMap)
    (cacheFlag : Bool)
    (hfile : isFileB qi = false) :
    (validQ (pyStrip qi) = false →
      fetch_data runQ hashHex files cache qi vars cacheFlag
        = ⟨.error .valueErr, cache, []⟩) ∧
    (validQ (pyStrip qi) = true →
      (fetch_data runQ hashHex files cache qi vars cacheFlag).out
        ≠ .error .valueErr) := by
  constructor
  · intro hv
    simp [fetch_data, resolveQuery, hfile, hv]
  · intro hv
    simp only [fetch_data, resolveQuery, hfile, Bool.false_eq_true, if_false, hv, if_true]
    cases hc : (if cacheFlag then lookupA cache (inlineKey hashHex qi) else none) with
    | some df => simp
    | none =>
      cases hs : pySubst (pyStrip qi) vars with
      | error e => simp
      | ok q2 => simp

/-- C5 witness: a non-file input whose stripped text starts with neither
keyword raises the validation error and writes nothing. -/
theorem c5_inline_validation_witness :
    isFileB ("  DROP TABLE t  ".data) = false ∧
      validQ (pyStrip ("  DROP TABLE t  ".data)) = false ∧
      fetch_data (fun _ => ⟨[]⟩) (fun _ => "k".data) [] []
          ("  DROP TABLE t  ".data) [] true
        = ⟨.error .valueErr, [], []⟩ :=
  ⟨by decide, by decide,
    (c5_inline_validation (fun _ => ⟨[]⟩) (fun _ => "k".data) [] []
      ("  DROP TABLE t  ".data) [] true (by decide)).1 (by decide)⟩

/-! ### C8: idempotent table drop -/

theorem countT_eq_zero_iff (ts : List (Str × Str)) (s tU : Str) :
    countT ts s tU = 0 ↔ ∀ p ∈ ts, ¬(p.1 = s ∧ p.2 = tU) := by
  simp [countT, List.length_eq_zero, List.filter_eq_nil_iff]

theorem count_pos_mem (ts : List (Str × Str)) (s tU : Str)
    (hwf : ∀ p ∈ ts, upperS p.1 = p.1 ∧ upperS p.2 = p.2)
    (hc : countT ts s tU ≠ 0) : upperS s = s ∧ (s, tU) ∈ ts := by
  have h : ¬ ∀ p ∈ ts, ¬(p.1 = s ∧ p.2 = tU) := fun hall =>
    hc ((countT_eq_zero_iff ts s tU).mpr hall)
  push_neg at h
  obtain ⟨p, hp, hp1, hp2⟩ := h
  have hu := (hwf p hp).1
  refine ⟨by rw [← hp1]; exact hu, ?_⟩
  have : p = (s, tU) := Prod.ext hp1 hp2
  rwa [this] at hp

theorem filter_not_filter {α : Type} (q : α → Bool) (l : List α) :
    (l.filter (fun a => !(q a))).filter q = [] := by
  induction l with
  | nil => rfl
  | cons a t ih =>
    cases h : q a
    · simp [List.filter_cons, h, ih]
    · simp [List.filter_cons, h, ih]

theorem countT_filter_out (ts : List (Str × Str)) (s tU : Str) :
    countT (ts.filter (fun p => !(p.1 = s && p.2 = tU))) s tU = 0 := by
  unfold countT
  rw [filter_not_filter]
  rfl

theorem drop_table_count_pos (w : Warehouse) (d s t : Str)
    (hmem : (upperS s, upperS t) ∈ w.tables)
    (hc : countT w.tables s (upperS t) ≠ 0) :
    drop_table w d s t =
      (none,
       ⟨w.tables.filter (fun p => !(p.1 = upperS s && p.2 = upperS t)), some d, some s⟩,
       [Stmt.useDatabase d, Stmt.useSchema s, Stmt.tableExistsQ s (upperS t),
        Stmt.dropTableS s t]) := by
  simp only [drop_table]
  rw [if_pos hc, if_pos hmem]
  rfl

theorem drop_table_count_zero (w : Warehouse) (d s t : Str)
    (hc : countT w.tables s (upperS t) = 0) :
    drop_table w d s t =
      (none, ⟨w.tables, some d, some s⟩,
       [Stmt.useDatabase d, Stmt.useSchema s, Stmt.tableExistsQ s (upperS t)]) := by
  simp only [drop_table]
  rw [if_neg (by simpa using hc)]

theorem drop_table_ok (w : Warehouse) (d s t : Str) (hwf : wfW w) :
    (drop_table w d s t).1 = none := by
  by_cases hc : countT w.tables s (upperS t) = 0
  · rw [drop_table_count_zero w d s t hc]
  · obtain ⟨hs, hmem⟩ := count_pos_mem w.tables s (upperS t) hwf hc
    rw [drop_table_count_pos w d s t (by rwa [hs]) hc]

/-- C8: on a catalog of uppercase-stored names, `drop_table` never raises,
always checks existence via the catalog query, issues DROP TABLE exactly when
the existence count is nonzero, is a no-op on the catalog when the table is
absent, and running it twice leaves the same session state as running it
once. -/
theorem c8_drop_table_idempotent (w : Warehouse) (d s t : Str) (hwf : wfW w) :
    (drop_table w d s t).1 = none ∧
      Stmt.tableExistsQ s (upperS t) ∈ (drop_table w d s t).2.2 ∧
      (Stmt.dropTableS s t ∈ (drop_table w d s t).2.2 ↔
        countT w.tables s (upperS t) ≠ 0) ∧
      (countT w.tables s (upperS t) = 0 →
        ((drop_table w d s t).2.1).tables = w.tables) ∧
      (drop_table ((drop_table w d s t).2.1) d s t).2.1 = (drop_table w d s t).2.1 := by
  by_cases hc : countT w.tables s (upperS t) = 0
  · rw [drop_table_count_zero w d s t hc]
    refine ⟨rfl, by simp, by simp [hc], fun _ => rfl, ?_⟩
    rw [drop_table_count_zero ⟨w.tables, some d, some s⟩ d s t hc]
  · obtain ⟨hs, hmem⟩ := count_pos_mem w.tables s (upperS t) hwf hc
    rw [drop_table_count_pos w d s t (by rwa [hs]) hc]
    refine ⟨rfl, by simp, by simp [hc], fun h => absurd h hc, ?_⟩
    have hc2 : countT
        (w.tables.filter (fun p => !(p.1 = upperS s && p.2 = upperS t))) s (upperS t)
        = 0 := by
      rw [hs]; exact countT_filter_out w.tables s (upperS t)
    rw [drop_table_count_zero
      ⟨w.tables.filter (fun p => !(p.1 = upperS s && p.2 = upperS t)), some d, some s⟩
      d s t hc2]

/-- C8 witness: dropping an existing table once removes it, and dropping
again is a raise-free no-op. -/
theorem c8_drop_table_idempotent_witness :
    wfW ⟨[("S".data, "T".data)], none, none⟩ ∧
      (drop_table ⟨[("S".data, "T".data)], none, none⟩ ("D".data) ("S".data) ("T".data)).1
        = none ∧
      (drop_table ((drop_table ⟨[("S".data, "T".data)], none, none⟩
          ("D".data) ("S".data) ("T".data)).2.1) ("D".data) ("S".data) ("T".data)).2.1
        = (drop_table ⟨[("S".data, "T".data)], none, none⟩
            ("D".data) ("S".data) ("T".data)).2.1 := by
  have h := c8_drop_table_idempotent ⟨[("S".data, "T".data)], none, none⟩
    ("D".data) ("S".data) ("T".data) (by decide)
  exact ⟨by decide, h.1, h.2.2.2.2⟩

/-! ### C1: export with empty rows -/

/-- C1 counterexample: with empty rows but `append = false`, `export_data`
does issue the catalog existence query and does change the warehouse state
(the drop-table step runs before the empty check), refuting the claim for
an arbitrary append flag. -/
theorem c1_export_empty_counterexample :
    Stmt.tableExistsQ ("S".data) ("T".data) ∈
        (export_data ⟨[("S".data, "T".data)], none, none⟩ ⟨[]⟩
          ("D".data) ("S".data) ("T".data) false).2.2.1 ∧
      (export_data ⟨[("S".data, "T".data)], none, none⟩ ⟨[]⟩
          ("D".data) ("S".data) ("T".data) false).2.1.tables
        ≠ [("S".data, "T".data)] := by
  decide

/-- C1 amended: with empty rows and `append = true`, `export_data` issues no
statement at all and leaves the warehouse state and the caller's frame
unchanged; with `append = false` it performs exactly the drop-table step
(context selection, catalog existence check, DROP when present) and then
returns without any further query or write. -/
theorem c1_export_empty (w : Warehouse) (df : DataFrame) (d s t : Str)
    (hempty : dfEmpty df = true) :
    export_data w df d s t true = (none, w, [], df) ∧
      export_data w df d s t false =
        ((drop_table w d s t).1, (drop_table w d s t).2.1,
         (drop_table w d s t).2.2, df) := by
  constructor
  · simp [export_data, hempty]
  · rcases hdt : drop_table w d s t with ⟨e, w1, tr⟩
    rcases e with _ | e
    · simp [export_data, hdt, hempty]
    · simp [export_data, hdt]

/-- C1 amended witness: a concrete empty frame with `append = true` leaves
everything untouched. -/
theorem c1_export_empty_witness :
    dfEmpty ⟨[]⟩ = true ∧
      export_data ⟨[("S".data, "T".data)], none, none⟩ ⟨[]⟩
          ("D".data) ("S".data) ("T".data) true
        = (none, ⟨[("S".data, "T".data)], none, none⟩, [], ⟨[]⟩) :=
  ⟨by decide,
    (c1_export_empty ⟨[("S".data, "T".data)], none, none⟩ ⟨[]⟩
      ("D".data) ("S".data) ("T".data) (by decide)).1⟩

/-! ### C10: export mutates the caller's frame -/

theorem map_eq_self_mem {α : Type} (f : α → α) (l : List α) (h : l.map f = l) :
    ∀ a ∈ l, f a = a := by
  induction l with
  | nil => intro a ha; cases ha
  | cons x tl ih =>
    rw [List.map_cons, List.cons_eq_cons] at h
    intro a ha
    rcases List.mem_cons.mp ha with rfl | hat
    · exact h.1
    · exact ih h.2 a hat

theorem export_data_df (w : Warehouse) (df : DataFrame) (d s t : Str)
    (append : Bool) (hwf : wfW w) (hne : dfEmpty df = false) :
    (export_data w df d s t append).2.2.2
      = ⟨df.cols.map (fun c => { c with name := upperS c.name })⟩ := by
  cases append with
  | true =>
    simp only [export_data, Bool.not_true, Bool.false_eq_true, if_false]
    rw [if_neg (by simp [hne])]
    split
    · split <;> rfl
    · rfl
  | false =>
    have hok : (drop_table w d s t).1 = none := drop_table_ok w d s t hwf
    rcases hdt : drop_table w d s t with ⟨e, w1, tr⟩
    rw [hdt] at hok
    simp only at hok
    subst hok
    simp only [export_data, Bool.not_false, if_true, hdt]
    rw [if_neg (by simp [hne])]
    split
    · split <;> rfl
    · rfl

/-- C10 counterexample: a non-empty frame whose column names are already
uppercase is left exactly unchanged by `export_data`, refuting the claim
that the input argument is never left unchanged. -/
theorem c10_export_mutation_counterexample :
    (export_data ⟨[("S".data, "T".data)], none, none⟩
        ⟨[⟨"A".data, .int64, [0]⟩]⟩ ("D".data) ("S".data) ("T".data) true).2.2.2
      = ⟨[⟨"A".data, .int64, [0]⟩]⟩ := by
  decide

/-- C10 amended: on a well-formed catalog, a non-empty frame passed to
`export_data` is left with every column name replaced by its uppercase form
(an in-place mutation of the caller's object), and the frame is left changed
exactly when some column name differs from its uppercase form. -/
theorem c10_export_mutation (w : Warehouse) (df : DataFrame) (d s t : Str)
    (append : Bool) (hwf : wfW w) (hne : dfEmpty df = false) :
    (export_data w df d s t append).2.2.2
        = ⟨df.cols.map (fun c => { c with name := upperS c.name })⟩ ∧
      ((∃ c ∈ df.cols, upperS c.name ≠ c.name) →
        (export_data w df d s t append).2.2.2 ≠ df) := by
  have hdf := export_data_df w df d s t append hwf hne
  refine ⟨hdf, ?_⟩
  rintro ⟨c, hc, hcu⟩ heq
  rw [hdf] at heq
  have hmap : df.cols.map (fun c => { c with name := upperS c.name }) = df.cols := by
    have := congrArg DataFrame.cols heq
    simpa using this
  have := map_eq_self_mem _ _ hmap c hc
  exact hcu (congrArg Column.name this)

/-- C10 amended witness: a lowercase-named column is uppercased in the
caller's frame. -/
theorem c10_export_mutation_witness :
    wfW ⟨[("S".data, "T".data)], none, none⟩ ∧
      dfEmpty ⟨[⟨"a".data, .int64, [0]⟩]⟩ = false ∧
      (export_data ⟨[("S".data, "T".data)], none, none⟩
          ⟨[⟨"a".data, .int64, [0]⟩]⟩ ("D".data) ("S".data) ("T".data) true).2.2.2
        = ⟨[⟨"A".data, .int64, [0]⟩]⟩ := by
  have h := c10_export_mutation ⟨[("S".data, "T".data)], none, none⟩
    ⟨[⟨"a".data, .int64, [0]⟩]⟩ ("D".data) ("S".data) ("T".data) true
    (by decide) (by decide)
  exact ⟨by decide, by decide, by rw [h.1]; decide⟩

/-! ### C9: statement splitting in execute_sql -/

theorem isSpaceC_ne_semi (c : Char) (h : isSpaceC c = true) : c ≠ ';' := by
  intro hc
  subst hc
  simp [isSpaceC] at h

theorem stripRight_cons_nil (c : Char) (t : Str) (h : stripRight t = []) :
    stripRight (c :: t) = if isSpaceC c then [] else [c] := by
  simp [stripRight, h]

theorem stripRight_cons_cons (c : Char) (t : Str) (r0 : Char) (rs : Str)
    (h : stripRight t = r0 :: rs) : stripRight (c :: t) = c :: r0 :: rs := by
  simp [stripRight, h]

theorem stripRight_eq_nil_iff (l : Str) :
    stripRight l = [] ↔ ∀ c ∈ l, isSpaceC c = true := by
  induction l with
  | nil => simp [stripRight]
  | cons c t ih =>
    cases h : stripRight t with
    | nil =>
      have ht : ∀ x ∈ t, isSpaceC x = true := ih.mp h
      rw [stripRight_cons_nil c t h]
      by_cases hc : isSpaceC c = true
      · rw [if_pos hc]
        constructor
        · intro _ x hx
          rcases List.mem_cons.mp hx with rfl | hm
          · exact hc
          · exact ht x hm
        · intro _; rfl
      · rw [if_neg hc]
        constructor
        · intro hcon; cases hcon
        · intro hall
          exact absurd (hall c (List.mem_cons_self c t)) hc
    | cons r0 rs =>
      have ht : ¬ (∀ x ∈ t, isSpaceC x = true) := by
        intro hall
        rw [ih.mpr hall] at h
        cases h
      rw [stripRight_cons_cons c t r0 rs h]
      constructor
      · intro hcon; cases hcon
      · intro hall
        exact absurd (fun x hx => hall x (List.mem_cons_of_mem c hx)) ht

theorem dropWhile_stripRight (l : Str) :
    (stripRight l).dropWhile isSpaceC = stripRight (l.dropWhile isSpaceC) := by
  induction l with
  | nil => rfl
  | cons c t ih =>
    cases hsp : isSpaceC c with
    | false =>
      have hdw : (c :: t).dropWhile isSpaceC = c :: t := by
        simp [List.dropWhile_cons, hsp]
      rw [hdw]
      cases h : stripRight t with
      | nil =>
        have hsr : stripRight (c :: t) = [c] := by
          rw [stripRight_cons_nil c t h, if_neg (by simp [hsp])]
        rw [hsr]
        simp [List.dropWhile_cons, hsp]
      | cons r0 rs =>
        rw [stripRight_cons_cons c t r0 rs h]
        simp [List.dropWhile_cons, hsp]
    | true =>
      have hdw : (c :: t).dropWhile isSpaceC = t.dropWhile isSpaceC := by
        simp [List.dropWhile_cons, hsp]
      rw [hdw]
      cases h : stripRight t with
      | nil =>
        have hsr : stripRight (c :: t) = [] := by
          rw [stripRight_cons_nil c t h, if_pos hsp]
        rw [hsr, ← ih, h]
      | cons r0 rs =>
        rw [stripRight_cons_cons c t r0 rs h]
        have : (c :: r0 :: rs).dropWhile isSpaceC = (r0 :: rs).dropWhile isSpaceC := by
          simp [List.dropWhile_cons, hsp]
        rw [this, ← ih, h]

theorem stripRight_idem (l : Str) : stripRight (stripRight l) = stripRight l := by
  induction l with
  | nil => rfl
  | cons c t ih =>
    cases h : stripRight t with
    | nil =>
      rw [stripRight_cons_nil c t h]
      by_cases hc : isSpaceC c = true
      · rw [if_pos hc]; rfl
      · rw [if_neg hc]
        rw [show stripRight [c] = if isSpaceC c then [] else [c] from rfl]
        rw [if_neg hc]
    | cons r0 rs =>
      rw [h] at ih
      rw [stripRight_cons_cons c t r0 rs h]
      exact stripRight_cons_cons c (r0 :: rs) r0 rs ih

theorem pyStrip_stripRight (l : Str) : pyStrip (stripRight l) = pyStrip l := by
  simp [pyStrip, dropWhile_stripRight, stripRight_idem]

theorem pyStrip_cons_space (c : Char) (l : Str) (h : isSpaceC c = true) :
    pyStrip (c :: l) = pyStrip l := by
  simp [pyStrip, List.dropWhile_cons, h]

theorem split1_all_space (t : Str) (h : ∀ x ∈ t, isSpaceC x = true) :
    split1 t = (t, []) := by
  induction t with
  | nil => rfl
  | cons c r ih =>
    have hc : c ≠ ';' := isSpaceC_ne_semi c (h c (List.mem_cons_self c r))
    have ihr := ih (fun x hx => h x (List.mem_cons_of_mem c hx))
    simp [split1, hc, ihr]

theorem split1_snd_nil (t : Str) (h : (split1 t).2 = []) : (split1 t).1 = t := by
  induction t with
  | nil => rfl
  | cons c r ih =>
    by_cases hc : c = ';'
    · subst hc
      simp [split1] at h
    · simp only [split1, if_neg hc] at h ⊢
      rw [ih h]

theorem splitSemi_cons_semi (t : Str) : splitSemi (';' :: t) = [] :: splitSemi t := by
  simp [splitSemi, split1]

theorem splitSemi_cons_other (c : Char) (t : Str) (hc : c ≠ ';') :
    splitSemi (c :: t) = (c :: (split1 t).1) :: (split1 t).2 := by
  simp [splitSemi, split1, hc]

theorem splitSemi_stripRight (s : Str) :
    splitSemi (stripRight s) = mapLast stripRight (splitSemi s) := by
  induction s with
  | nil => rfl
  | cons c t ih =>
    cases h : stripRight t with
    | nil =>
      have hall : ∀ x ∈ t, isSpaceC x = true := (stripRight_eq_nil_iff t).mp h
      have hsp1 : split1 t = (t, []) := split1_all_space t hall
      have hst : splitSemi t = [t] := by
        rw [show splitSemi t = (split1 t).1 :: (split1 t).2 from rfl, hsp1]
      by_cases hsp : isSpaceC c = true
      · have hcs : c ≠ ';' := isSpaceC_ne_semi c hsp
        have hsr : stripRight (c :: t) = [] := by
          rw [stripRight_cons_nil c t h, if_pos hsp]
        rw [hsr, splitSemi_cons_other c t hcs, hsp1]
        show [([] : Str)] = mapLast stripRight [c :: t]
        rw [show mapLast stripRight [c :: t] = [stripRight (c :: t)] from rfl, hsr]
      · have hsr : stripRight (c :: t) = [c] := by
          rw [stripRight_cons_nil c t h, if_neg hsp]
        rw [hsr]
        by_cases hcs : c = ';'
        · subst hcs
          rw [splitSemi_cons_semi, splitSemi_cons_semi t]
          rw [show splitSemi ([] : Str) = [[]] from rfl, hst]
          show [([] : Str), []] = [([] : Str), stripRight t]
          rw [h]
        · rw [splitSemi_cons_other c [] hcs, splitSemi_cons_other c t hcs, hsp1]
          show [[c]] = mapLast stripRight [c :: t]
          rw [show mapLast stripRight [c :: t] = [stripRight (c :: t)] from rfl, hsr]
    | cons r0 rs =>
      rw [h] at ih
      rw [stripRight_cons_cons c t r0 rs h]
      by_cases hcs : c = ';'
      · subst hcs
        rw [splitSemi_cons_semi, splitSemi_cons_semi t, ih]
        rw [show splitSemi t = (split1 t).1 :: (split1 t).2 from rfl]
        rfl
      · rw [splitSemi_cons_other c (r0 :: rs) hcs, splitSemi_cons_other c t hcs]
        cases h2 : (split1 t).2 with
        | nil =>
          have ht1 : (split1 t).1 = t := split1_snd_nil t h2
          have hst : splitSemi t = [t] := by
            rw [show splitSemi t = (split1 t).1 :: (split1 t).2 from rfl, h2, ht1]
          have ih2 : splitSemi (r0 :: rs) = [r0 :: rs] := by
            rw [ih, hst, show mapLast stripRight [t] = [stripRight t] from rfl, h]
          have e := List.cons_eq_cons.mp
            (show (split1 (r0 :: rs)).1 :: (split1 (r0 :: rs)).2
                = (r0 :: rs) :: [] from ih2)
          rw [e.1, e.2, ht1]
          show [c :: r0 :: rs] = [stripRight (c :: t)]
          rw [stripRight_cons_cons c t r0 rs h]
        | cons q qs =>
          have hst : splitSemi t = (split1 t).1 :: q :: qs := by
            rw [show splitSemi t = (split1 t).1 :: (split1 t).2 from rfl, h2]
          have ih2 : splitSemi (r0 :: rs)
              = (split1 t).1 :: mapLast stripRight (q :: qs) := by
            rw [ih, hst]
            rfl
          have e := List.cons_eq_cons.mp
            (show (split1 (r0 :: rs)).1 :: (split1 (r0 :: rs)).2
                = (split1 t).1 :: mapLast stripRight (q :: qs) from ih2)
          rw [e.1, e.2]
          rfl

theorem map_pyStrip_mapLast (l : List Str) :
    (mapLast stripRight l).map pyStrip = l.map pyStrip := by
  induction l with
  | nil => rfl
  | cons x xs ih =>
    cases xs with
    | nil => simp [mapLast, pyStrip_stripRight]
    | cons y ys =>
      simp only [mapLast, List.map_cons]
      rw [List.map_cons] at ih
      rw [show (mapLast stripRight (y :: ys)).map pyStrip
          = (y :: ys).map pyStrip from ih]
      rw [List.map_cons]

theorem claimSegments_stripRight (s : Str) :
    claimSegments (stripRight s) = claimSegments s := by
  unfold claimSegments
  rw [splitSemi_stripRight, map_pyStrip_mapLast]

theorem claimSegments_cons_space (c : Char) (t : Str) (h : isSpaceC c = true) :
    claimSegments (c :: t) = claimSegments t := by
  have hcs : c ≠ ';' := isSpaceC_ne_semi c h
  unfold claimSegments
  rw [splitSemi_cons_other c t hcs]
  simp only [List.map_cons, pyStrip_cons_space c _ h]
  rfl

theorem claimSegments_dropWhile (s : Str) :
    claimSegments (s.dropWhile isSpaceC) = claimSegments s := by
  induction s with
  | nil => rfl
  | cons c t ih =>
    by_cases hsp : isSpaceC c = true
    · rw [show (c :: t).dropWhile isSpaceC = t.dropWhile isSpaceC from by
        simp [List.dropWhile_cons, hsp]]
      rw [ih, claimSegments_cons_space c t hsp]
    · rw [show (c :: t).dropWhile isSpaceC = c :: t from by
        simp [List.dropWhile_cons, hsp]]

theorem claimSegments_pyStrip (s : Str) :
    claimSegments (pyStrip s) = claimSegments s := by
  rw [show pyStrip s = stripRight (s.dropWhile isSpaceC) from rfl,
    claimSegments_stripRight, claimSegments_dropWhile]

/-- C9: on a successful substitution, `execute_sql` executes exactly the
non-empty (after trimming) segments of the variable-substituted file text
split on the statement terminator, each once, in their original order. -/
theorem c9_execute_sql (fileText : Str) (vars : VarMap) (sub : Str)
    (hsub : pySubst fileText vars = .ok sub) :
    execute_sql fileText vars = .ok (claimSegments sub) := by
  simp only [execute_sql, hsub]
  show Except.ok (claimSegments (pyStrip sub)) = Except.ok (claimSegments sub)
  rw [claimSegments_pyStrip]

/-- C9 witness: a concrete file with padding, an empty segment and trailing
whitespace executes exactly its two non-empty trimmed statements in order. -/
theorem c9_execute_sql_witness :
    pySubst (" select 1 ; with x ;; ".data) [] = .ok (" select 1 ; with x ;; ".data) ∧
      execute_sql (" select 1 ; with x ;; ".data) []
        = .ok (claimSegments (" select 1 ; with x ;; ".data)) ∧
      claimSegments (" select 1 ; with x ;; ".data)
        = ["select 1".data, "with x".data] :=
  ⟨by decide,
    c9_execute_sql (" select 1 ; with x ;; ".data) [] (" select 1 ; with x ;; ".data)
      (by decide),
    by decide⟩

/-! ### C4: variable substitution -/

theorem except_map_map (f g : Str → Str) (x : Except PErr Str) :
    f <$> (g <$> x) = (fun s => f (g s)) <$> x := by
  cases x <;> rfl

theorem except_map_error_iff (f : Str → Str) (x : Except PErr Str) (e : PErr) :
    (f <$> x) = .error e ↔ x = .error e := by
  cases x <;> simp [Except.map, Functor.map]

theorem except_isOk_map (f : Str → Str) (x : Except PErr Str) :
    (f <$> x).isOk = x.isOk := by
  cases x <;> rfl

theorem wordChar_props (c : Char) (h : isWordChar c = true) :
    c ≠ '{' ∧ c ≠ '}' ∧ c ≠ '$' := by
  refine ⟨?_, ?_, ?_⟩ <;> intro hc <;> subst hc <;> exact absurd h (by decide)

theorem braceFree_cons {c : Char} {r : Str} (h : braceFreeB (c :: r) = true) :
    c ≠ '{' ∧ c ≠ '}' ∧ braceFreeB r = true := by
  rw [show braceFreeB (c :: r) = ((!(c = '{' || c = '}')) && braceFreeB r) from rfl,
    Bool.and_eq_true] at h
  obtain ⟨h1, h2⟩ := h
  refine ⟨fun hc => ?_, fun hc => ?_, h2⟩
  · subst hc; exact absurd h1 (by decide)
  · subst hc; exact absurd h1 (by decide)

theorem resolveField_word (vars : VarMap) (a : Char) (as_ : Str)
    (hw : (a :: as_).all isWordChar = true) (hd : isDigitC a = false) :
    resolveField vars (a :: as_)
      = match lookupA vars (a :: as_) with
        | some v => .ok v
        | none => .error (.keyError (a :: as_)) := by
  have hside : ¬ (((a :: as_).isEmpty || (a :: as_).all isDigitC) = true) := by
    simp [List.all_cons, hd]
  unfold resolveField
  rw [if_neg hside, if_pos hw]

theorem fvpf_master_nil (vars : VarMap) :
    (pfAux vars .outside (fvAux .normal []) = ssAux vars .mN []) ∧
    (pfAux vars .outside (fvAux .afterDollar []) = ssAux vars .mD []) ∧
    (∀ a as_, isDigitC a = false → (a :: as_).all isWordChar = true →
      pfAux vars (.inField (a :: as_)) (fvAux .inWord [])
        = ssAux vars (.mW (a :: as_)) []) := by
  refine ⟨rfl, rfl, fun a as_ hd hw => ?_⟩
  show pfAux vars (.inField (a :: as_)) ['}'] = ssAux vars (.mW (a :: as_)) []
  rw [show pfAux vars (.inField (a :: as_)) ['}']
      = (match resolveField vars (a :: as_) with
         | .ok v => (fun s => v ++ s) <$> pfAux vars .outside []
         | .error e => .error e) from rfl]
  rw [resolveField_word vars a as_ hw hd]
  rw [show ssAux vars (.mW (a :: as_)) []
      = (match lookupA vars (a :: as_) with
         | some v => .ok v
         | none => .error (.keyError (a :: as_))) from rfl]
  cases hl : lookupA vars (a :: as_) with
  | some v => simp [pfAux]
  | none => rfl

theorem fvpf_master (vars : VarMap) :
    ∀ n q, q.length ≤ n → braceFreeB q = true →
      ((gdAux .normal q = true →
          pfAux vars .outside (fvAux .normal q) = ssAux vars .mN q) ∧
       (gdAux .afterDollar q = true →
          pfAux vars .outside (fvAux .afterDollar q) = ssAux vars .mD q) ∧
       (∀ a as_, isDigitC a = false → (a :: as_).all isWordChar = true →
          gdAux .inWord q = true →
          pfAux vars (.inField (a :: as_)) (fvAux .inWord q)
            = ssAux vars (.mW (a :: as_)) q)) := by
  intro n
  induction n with
  | zero =>
    intro q hlen _
    have hq : q = [] := List.length_eq_zero.mp (Nat.le_zero.mp hlen)
    subst hq
    obtain ⟨m1, m2, m3⟩ := fvpf_master_nil vars
    exact ⟨fun _ => m1, fun _ => m2, fun a as_ hd hw _ => m3 a as_ hd hw⟩
  | succ m ihm =>
    intro q hlen hb
    cases q with
    | nil =>
      obtain ⟨m1, m2, m3⟩ := fvpf_master_nil vars
      exact ⟨fun _ => m1, fun _ => m2, fun a as_ hd hw _ => m3 a as_ hd hw⟩
    | cons c r =>
      have hlr : r.length ≤ m := Nat.le_of_succ_le_succ hlen
      obtain ⟨hc1, hc2, hbr⟩ := braceFree_cons hb
      have IH := ihm r hlr hbr
      refine ⟨?_, ?_, ?_⟩
      · intro hg
        by_cases hdol : c = '$'
        · subst hdol
          have hg' : gdAux .afterDollar r = true := by simpa [gdAux] using hg
          rw [show fvAux .normal ('$' :: r) = fvAux .afterDollar r from rfl]
          rw [show ssAux vars .mN ('$' :: r) = ssAux vars .mD r from rfl]
          exact IH.2.1 hg'
        · have hg' : gdAux .normal r = true := by simpa [gdAux, hdol] using hg
          rw [show fvAux .normal (c :: r) = c :: fvAux .normal r from by
            simp [fvAux, hdol]]
          rw [show pfAux vars .outside (c :: fvAux .normal r)
              = (fun s => c :: s) <$> pfAux vars .outside (fvAux .normal r) from by
            simp [pfAux, hc1, hc2]]
          rw [IH.1 hg']
          rw [show ssAux vars .mN (c :: r)
              = (fun s => c :: s) <$> ssAux vars .mN r from by simp [ssAux, hdol]]
      · intro hg
        by_cases hwc : isWordChar c = true
        · have hga : (!isDigitC c && gdAux .inWord r) = true := by
            simpa [gdAux, hwc] using hg
          rw [Bool.and_eq_true, Bool.not_eq_true'] at hga
          obtain ⟨hne1, hne2, hne3⟩ := wordChar_props c hwc
          rw [show fvAux .afterDollar (c :: r) = '{' :: c :: fvAux .inWord r from by
            simp [fvAux, hwc]]
          rw [show pfAux vars .outside ('{' :: c :: fvAux .inWord r)
              = pfAux vars (.inField [c]) (fvAux .inWord r) from by
            simp [pfAux, hne1, hne2]]
          rw [show ssAux vars .mD (c :: r) = ssAux vars (.mW [c]) r from by
            simp [ssAux, hwc]]
          exact IH.2.2 c [] hga.1 (by simp [hwc]) hga.2
        · by_cases hdol : c = '$'
          · subst hdol
            have hg' : gdAux .afterDollar r = true := by simpa [gdAux, hwc] using hg
            rw [show fvAux .afterDollar ('$' :: r) = '$' :: fvAux .afterDollar r from by
              simp [fvAux, hwc]]
            rw [show pfAux vars .outside ('$' :: fvAux .afterDollar r)
                = (fun s => '$' :: s) <$> pfAux vars .outside (fvAux .afterDollar r) from by
              simp [pfAux]]
            rw [IH.2.1 hg']
            rw [show ssAux vars .mD ('$' :: r)
                = (fun s => '$' :: s) <$> ssAux vars .mD r from by simp [ssAux, hwc]]
          · have hg' : gdAux .normal r = true := by simpa [gdAux, hwc, hdol] using hg
            rw [show fvAux .afterDollar (c :: r) = '$' :: c :: fvAux .normal r from by
              simp [fvAux, hwc, hdol]]
            rw [show pfAux vars .outside ('$' :: c :: fvAux .normal r)
                = (fun s => '$' :: s) <$> ((fun s => c :: s) <$>
                    pfAux vars .outside (fvAux .normal r)) from by
              simp [pfAux, hc1, hc2]]
            rw [IH.1 hg', except_map_map]
            rw [show ssAux vars .mD (c :: r)
                = (fun s => '$' :: c :: s) <$> ssAux vars .mN r from by
              simp [ssAux, hwc, hdol]]
      · intro a as_ hd hw hg
        by_cases hwc : isWordChar c = true
        · have hg' : gdAux .inWord r = true := by simpa [gdAux, hwc] using hg
          obtain ⟨hne1, hne2, hne3⟩ := wordChar_props c hwc
          rw [show fvAux .inWord (c :: r) = c :: fvAux .inWord r from by
            simp [fvAux, hwc]]
          rw [show pfAux vars (.inField (a :: as_)) (c :: fvAux .inWord r)
              = pfAux vars (.inField ((a :: as_) ++ [c])) (fvAux .inWord r) from by
            simp [pfAux, hne1, hne2]]
          rw [show ssAux vars (.mW (a :: as_)) (c :: r)
              = ssAux vars (.mW ((a :: as_) ++ [c])) r from by simp [ssAux, hwc]]
          rw [show (a :: as_) ++ [c] = a :: (as_ ++ [c]) from rfl]
          refine IH.2.2 a (as_ ++ [c]) hd ?_ hg'
          have hw' := hw
          simp only [List.all_cons, List.all_append, Bool.and_eq_true] at hw' ⊢
          exact ⟨hw'.1, hw'.2, by simp [hwc]⟩
        · by_cases hdol : c = '$'
          · subst hdol
            have hg' : gdAux .afterDollar r = true := by simpa [gdAux, hwc] using hg
            rw [show fvAux .inWord ('$' :: r) = '}' :: fvAux .afterDollar r from by
              simp [fvAux, hwc]]
            rw [show pfAux vars (.inField (a :: as_)) ('}' :: fvAux .afterDollar r)
                = (match resolveField vars (a :: as_) with
                   | .ok v => (fun s => v ++ s) <$>
                       pfAux vars .outside (fvAux .afterDollar r)
                   | .error e => .error e) from by simp [pfAux]]
            rw [resolveField_word vars a as_ hw hd]
            rw [show ssAux vars (.mW (a :: as_)) ('$' :: r)
                = (match lookupA vars (a :: as_) with
                   | some v => (fun s => v ++ s) <$> ssAux vars .mD r
                   | none => .error (.keyError (a :: as_))) from by simp [ssAux, hwc]]
            cases hl : lookupA vars (a :: as_) with
            | some v => simp only [IH.2.1 hg']
            | none => rfl
          · have hg' : gdAux .normal r = true := by simpa [gdAux, hwc, hdol] using hg
            rw [show fvAux .inWord (c :: r) = '}' :: c :: fvAux .normal r from by
              simp [fvAux, hwc, hdol]]
            rw [show pfAux vars (.inField (a :: as_)) ('}' :: c :: fvAux .normal r)
                = (match resolveField vars (a :: as_) with
                   | .ok v => (fun s => v ++ s) <$> ((fun s => c :: s) <$>
                       pfAux vars .outside (fvAux .normal r))
                   | .error e => .error e) from by simp [pfAux, hc1, hc2]]
            rw [resolveField_word vars a as_ hw hd]
            rw [show ssAux vars (.mW (a :: as_)) (c :: r)
                = (match lookupA vars (a :: as_) with
                   | some v => (fun s => v ++ c :: s) <$> ssAux vars .mN r
                   | none => .error (.keyError (a :: as_))) from by
              simp [ssAux, hwc, hdol]]
            cases hl : lookupA vars (a :: as_) with
            | some v => simp only [IH.1 hg', except_map_map]
            | none => rfl

theorem ssAux_error_shape (vars : VarMap) :
    ∀ q st e, ssAux vars st q = .error e →
      ∃ nm, e = .keyError nm ∧ lookupA vars nm = none := by
  intro q
  induction q with
  | nil =>
    intro st e h
    cases st with
    | mN => cases h
    | mD => cases h
    | mW acc =>
      rw [show ssAux vars (.mW acc) []
          = (match lookupA vars acc with
             | some v => .ok v
             | none => .error (.keyError acc)) from rfl] at h
      cases hl : lookupA vars acc with
      | some v => simp [hl] at h
      | none =>
        simp only [hl] at h
        injection h with h'
        exact ⟨acc, h'.symm, hl⟩
  | cons c r ih =>
    intro st e h
    cases st with
    | mN =>
      by_cases hdol : c = '$'
      · subst hdol
        rw [show ssAux vars .mN ('$' :: r) = ssAux vars .mD r from rfl] at h
        exact ih .mD e h
      · rw [show ssAux vars .mN (c :: r)
            = (fun s => c :: s) <$> ssAux vars .mN r from by simp [ssAux, hdol]] at h
        exact ih .mN e ((except_map_error_iff _ _ _).mp h)
    | mD =>
      by_cases hwc : isWordChar c = true
      · rw [show ssAux vars .mD (c :: r) = ssAux vars (.mW [c]) r from by
          simp [ssAux, hwc]] at h
        exact ih (.mW [c]) e h
      · by_cases hdol : c = '$'
        · subst hdol
          rw [show ssAux vars .mD ('$' :: r)
              = (fun s => '$' :: s) <$> ssAux vars .mD r from by simp [ssAux, hwc]] at h
          exact ih .mD e ((except_map_error_iff _ _ _).mp h)
        · rw [show ssAux vars .mD (c :: r)
              = (fun s => '$' :: c :: s) <$> ssAux vars .mN r from by
            simp [ssAux, hwc, hdol]] at h
          exact ih .mN e ((except_map_error_iff _ _ _).mp h)
    | mW acc =>
      by_cases hwc : isWordChar c = true
      · rw [show ssAux vars (.mW acc) (c :: r)
            = ssAux vars (.mW (acc ++ [c])) r from by simp [ssAux, hwc]] at h
        exact ih (.mW (acc ++ [c])) e h
      · rw [show ssAux vars (.mW acc) (c :: r)
            = (match lookupA vars acc with
               | some v =>
                 if c = '$' then (fun s => v ++ s) <$> ssAux vars .mD r
                 else (fun s => v ++ c :: s) <$> ssAux vars .mN r
               | none => .error (.keyError acc)) from by simp [ssAux, hwc]] at h
        cases hl : lookupA vars acc with
        | some v =>
          simp only [hl] at h
          by_cases hdol : c = '$'
          · rw [if_pos hdol] at h
            exact ih .mD e ((except_map_error_iff _ _ _).mp h)
          · rw [if_neg hdol] at h
            exact ih .mN e ((except_map_error_iff _ _ _).mp h)
        | none =>
          simp only [hl] at h
          injection h with h'
          exact ⟨acc, h'.symm, hl⟩

theorem ssAux_isOk (vars : VarMap) :
    ∀ q st, (ssAux vars st q).isOk
      = (rfAux st q).all (fun i => (lookupA vars i).isSome) := by
  intro q
  induction q with
  | nil =>
    intro st
    cases st with
    | mN => rfl
    | mD => rfl
    | mW acc =>
      rw [show ssAux vars (.mW acc) []
          = (match lookupA vars acc with
             | some v => .ok v
             | none => .error (.keyError acc)) from rfl]
      rw [show rfAux (.mW acc) [] = [acc] from rfl]
      cases hl : lookupA vars acc with
      | some v => simp [hl, Except.isOk, Except.toBool]
      | none => simp [hl, Except.isOk, Except.toBool]
  | cons c r ih =>
    intro st
    cases st with
    | mN =>
      by_cases hdol : c = '$'
      · subst hdol
        rw [show ssAux vars .mN ('$' :: r) = ssAux vars .mD r from rfl]
        rw [show rfAux .mN ('$' :: r) = rfAux .mD r from rfl]
        exact ih .mD
      · rw [show ssAux vars .mN (c :: r)
            = (fun s => c :: s) <$> ssAux vars .mN r from by simp [ssAux, hdol]]
        rw [show rfAux .mN (c :: r) = rfAux .mN r from by simp [rfAux, hdol]]
        rw [except_isOk_map]
        exact ih .mN
    | mD =>
      by_cases hwc : isWordChar c = true
      · rw [show ssAux vars .mD (c :: r) = ssAux vars (.mW [c]) r from by
          simp [ssAux, hwc]]
        rw [show rfAux .mD (c :: r) = rfAux (.mW [c]) r from by simp [rfAux, hwc]]
        exact ih (.mW [c])
      · by_cases hdol : c = '$'
        · subst hdol
          rw [show ssAux vars .mD ('$' :: r)
              = (fun s => '$' :: s) <$> ssAux vars .mD r from by simp [ssAux, hwc]]
          rw [show rfAux .mD ('$' :: r) = rfAux .mD r from by simp [rfAux, hwc]]
          rw [except_isOk_map]
          exact ih .mD
        · rw [show ssAux vars .mD (c :: r)
              = (fun s => '$' :: c :: s) <$> ssAux vars .mN r from by
            simp [ssAux, hwc, hdol]]
          rw [show rfAux .mD (c :: r) = rfAux .mN r from by simp [rfAux, hwc, hdol]]
          rw [except_isOk_map]
          exact ih .mN
    | mW acc =>
      by_cases hwc : isWordChar c = true
      · rw [show ssAux vars (.mW acc) (c :: r)
            = ssAux vars (.mW (acc ++ [c])) r from by simp [ssAux, hwc]]
        rw [show rfAux (.mW acc) (c :: r) = rfAux (.mW (acc ++ [c])) r from by
          simp [rfAux, hwc]]
        exact ih (.mW (acc ++ [c]))
      · rw [show ssAux vars (.mW acc) (c :: r)
            = (match lookupA vars acc with
               | some v =>
                 if c = '$' then (fun s => v ++ s) <$> ssAux vars .mD r
                 else (fun s => v ++ c :: s) <$> ssAux vars .mN r
               | none => .error (.keyError acc)) from by simp [ssAux, hwc]]
        rw [show rfAux (.mW acc) (c :: r)
            = acc :: (if c = '$' then rfAux .mD r else rfAux .mN r) from by
          simp [rfAux, hwc]]
        rw [List.all_cons]
        cases hl : lookupA vars acc with
        | some v =>
          simp only [hl, Option.isSome_some, Bool.true_and]
          by_cases hdol : c = '$'
          · rw [if_pos hdol, if_pos hdol, except_isOk_map]
            exact ih .mD
          · rw [if_neg hdol, if_neg hdol, except_isOk_map]
            exact ih .mN
        | none =>
          simp only [hl, Option.isSome_none, Bool.false_and]
          rfl

theorem pySubst_eq_substSpec (q : Str) (vars : VarMap)
    (hb : braceFreeB q = true) (hg : goodDollarsB q = true) :
    pySubst q vars = substSpec q vars :=
  (fvpf_master vars q.length q le_rfl hb).1 hg

/-- C4 counterexample: the query text `select ` followed by the literal
replacement field holding the plain name a (a valid inline query containing
no dollar token at all) raises the missing-key error on an empty variable
map, because `str.format` interprets the literal braces; so a missing-key
error is not equivalent to a dollar-identifier being absent from the map. -/
theorem c4_substitution_counterexample :
    pySubst ("select {a}".data) [] = .error (.keyError ("a".data)) ∧
      refsQ ("select {a}".data) = [] ∧
      ∀ c ∈ ("select {a}".data), c ≠ '$' := by
  decide

/-- C4 amended: for query texts containing no literal brace character and in
which every dollar sign followed by word characters begins a non-digit
identifier, the substitution step equals the claim-level substitution (each
`$identifier` occurrence replaced by the map's value for that identifier),
and it raises a missing-key error exactly when the query references an
identifier absent from the map. -/
theorem c4_substitution (q : Str) (vars : VarMap)
    (hb : braceFreeB q = true) (hg : goodDollarsB q = true) :
    pySubst q vars = substSpec q vars ∧
      ((∃ nm, pySubst q vars = .error (.keyError nm)) ↔
        ∃ i ∈ refsQ q, lookupA vars i = none) := by
  have heq := pySubst_eq_substSpec q vars hb hg
  refine ⟨heq, ?_, ?_⟩
  · rintro ⟨nm, hnm⟩
    rw [heq] at hnm
    have hok : (substSpec q vars).isOk = false := by rw [hnm]; rfl
    rw [show (substSpec q vars).isOk = (ssAux vars .mN q).isOk from rfl,
      ssAux_isOk] at hok
    rw [show rfAux .mN q = refsQ q from rfl] at hok
    obtain ⟨i, hi, hns⟩ := List.all_eq_false.mp hok
    exact ⟨i, hi, by cases hx : lookupA vars i with
      | some v => rw [hx] at hns; simp at hns
      | none => rfl⟩
  · rintro ⟨i, hi, hnone⟩
    have hall : (refsQ q).all (fun i => (lookupA vars i).isSome) = false := by
      cases hcon : (refsQ q).all (fun i => (lookupA vars i).isSome) with
      | false => rfl
      | true =>
        have := List.all_eq_true.mp hcon i hi
        rw [hnone] at this
        cases this
    have hok : (substSpec q vars).isOk = false := by
      rw [show (substSpec q vars).isOk = (ssAux vars .mN q).isOk from rfl,
        ssAux_isOk]
      exact hall
    cases hse : substSpec q vars with
    | ok v => rw [hse] at hok; cases hok
    | error e =>
      obtain ⟨nm, hnm, _⟩ := ssAux_error_shape vars q .mN e hse
      exact ⟨nm, by rw [heq, hse, hnm]⟩

/-- C4 witness: the spec's own example substitutes correctly, and the same
skeleton with an empty map is a missing-key error. -/
theorem c4_substitution_witness :
    braceFreeB ("select * from t where id = $id".data) = true ∧
      goodDollarsB ("select * from t where id = $id".data) = true ∧
      (pySubst ("select * from t where id = $id".data) [("id".data, "42".data)]
          = substSpec ("select * from t where id = $id".data)
              [("id".data, "42".data)] ∧
        ((∃ nm, pySubst ("select * from t where id = $id".data)
              [("id".data, "42".data)] = .error (.keyError nm)) ↔
          ∃ i ∈ refsQ ("select * from t where id = $id".data),
            lookupA [("id".data, "42".data)] i = none)) ∧
      pySubst ("select * from t where id = $id".data) [("id".data, "42".data)]
        = .ok ("select * from t where id = 42".data) ∧
      pySubst ("select * from t where id = $id".data) []
        = .error (.keyError ("id".data)) :=
  ⟨by decide, by decide,
    c4_substitution ("select * from t where id = $id".data)
      [("id".data, "42".data)] (by decide) (by decide),
    by decide, by decide⟩
